import Mathlib

/-!
Verification of the study-scheduling core of the AnkiCard backend.

The embedding models the SQLAlchemy tables as Lean structures, a database
state as insertion-ordered lists of rows, timestamps as integers (a day is
`oneDay = 86400` units), Python floats as rationals, and the SQL queries of
`app/cards/study_service.py`, `app/cards/models.py` and
`app/cards/routes.py` as list computations:

* a table is a `List` of rows in insertion order;
* `.first()` without `order_by` returns the head of the row list;
* `order_by(col.asc()).first()` returns the first row (in insertion order)
  attaining the minimal key, i.e. the head of a stable sort;
* `order_by(func.random()).first()` is modelled by an arbitrary reordering
  function `σ`, constrained to a permutation in the theorems;
* a SQL `NULL` comparison (`due_date <= now` with `due_date IS NULL`) is
  false, so rows with `due_date = none` never match such a filter.
-/

namespace AnkiStudy

/-- Row of the `cards` table (fields used by the study core). -/
structure Card where
  id : ℕ
  user_id : ℕ
  deck_id : ℕ
  answer : String
  created_at : ℤ
deriving Repr, DecidableEq

/-- Row of the `card_reviews` table (`CardReview` model). -/
structure CardReview where
  card_id : ℕ
  user_id : ℕ
  ease_factor : ℚ
  interval : ℤ
  repetitions : ℕ
  due_date : Option ℤ
  quality : Option ℤ
  last_reviewed : ℤ
deriving Repr, DecidableEq

/-- Length of one day in time units (`timedelta(days=1)`). -/
def oneDay : ℤ := 86400

/-- Python's built-in `round`: round half to even (banker's rounding). -/
def pyRound (x : ℚ) : ℤ :=
  let f := ⌊x⌋
  let r := x - (f : ℚ)
  if r < 1/2 then f
  else if 1/2 < r then f + 1
  else if f % 2 = 0 then f else f + 1

/-- `CardReview.calculate_next_interval` from `app/cards/models.py`:
SM-2 update, returning `(new_ease, new_interval, new_repetitions, new_due_date)`.
`0.1 = 1/10`, `0.08 = 2/25`, `0.02 = 1/50`, `1.3 = 13/10`. -/
def calculate_next_interval (ease_factor : ℚ) (interval : ℤ) (repetitions : ℕ)
    (quality : ℤ) (now : ℤ) : ℚ × ℤ × ℕ × ℤ :=
  let new_ease : ℚ :=
    max (13/10)
      (ease_factor + (1/10 - (5 - (quality : ℚ)) * (2/25 + (5 - (quality : ℚ)) * (1/50))))
  let rp : ℕ × ℤ :=
    if quality < 3 then
      (0, 1)
    else
      let new_repetitions := repetitions + 1
      if new_repetitions = 1 then (new_repetitions, 1)
      else if new_repetitions = 2 then (new_repetitions, 6)
      else (new_repetitions, pyRound ((interval : ℚ) * new_ease))
  (new_ease, rp.2, rp.1, now + rp.2 * oneDay)

/-- A database state: the two tables as insertion-ordered row lists. -/
structure DB where
  cards : List Card
  reviews : List CardReview
deriving Repr, DecidableEq

/-- `Card.query.filter(Card.deck_id == deck_id, Card.user_id == user_id)`:
the deck's cards for a user, in insertion order. -/
def deckCards (db : DB) (deck_id user_id : ℕ) : List Card :=
  db.cards.filter (fun c => c.deck_id == deck_id && c.user_id == user_id)

/-- The SQL filter `CardReview.due_date <= now`: false on `NULL`. -/
def dueLe (r : CardReview) (now : ℤ) : Bool :=
  match r.due_date with
  | some t => t ≤ now
  | none => false

/-- The due query of `get_next_card_spaced_repetition`:
`CardReview join Card` filtered on the deck, the user and `due_date <= now`,
in review-row insertion order. -/
def dueReviews (db : DB) (deck_id user_id : ℕ) (now : ℤ) : List CardReview :=
  db.reviews.filter (fun r =>
    r.user_id == user_id && dueLe r now &&
    db.cards.any (fun c => c.id == r.card_id && c.deck_id == deck_id && c.user_id == user_id))

/-- Sort key of a due row; on the due query every row has `due_date` set. -/
def dueKey (r : CardReview) : ℤ :=
  match r.due_date with
  | some t => t
  | none => 0

/-- `order_by(CardReview.due_date.asc()).first()`: the first row in insertion
order among those with the minimal `due_date` (head of a stable sort). -/
def firstMinByDue : List CardReview → Option CardReview
  | [] => none
  | r :: rs =>
    match firstMinByDue rs with
    | none => some r
    | some m => if dueKey m < dueKey r then some m else some r

/-- `Card.query.get`-style lookup by primary key (the `review.card`
relationship resolves `card_id` against the `cards` table). -/
def findCard (db : DB) (card_id : ℕ) : Option Card :=
  db.cards.find? (fun c => c.id == card_id)

/-- Does the user have a `CardReview` row for this card (any deck)? -/
def hasReview (db : DB) (card_id user_id : ℕ) : Bool :=
  db.reviews.any (fun r => r.card_id == card_id && r.user_id == user_id)

/-- The new-card query of `get_next_card_spaced_repetition`: cards of the
deck with no review row of the user, in insertion order. -/
def newCandidates (db : DB) (deck_id user_id : ℕ) : List Card :=
  (deckCards db deck_id user_id).filter (fun c => !hasReview db c.id user_id)

/-- `StudyService.get_next_card_spaced_repetition`. `σr`/`σc` model
`order_by(func.random())` as a reordering of the candidate rows; the
theorems constrain them to permutations. -/
def get_next_card_spaced_repetition
    (σr : List CardReview → List CardReview) (σc : List Card → List Card)
    (db : DB) (deck_id user_id : ℕ) (now : ℤ) (shuffle : Bool) : Option Card :=
  let due := dueReviews db deck_id user_id now
  let due_review := if shuffle then (σr due).head? else firstMinByDue due
  match due_review with
  | some r => findCard db r.card_id
  | none =>
    let new_cards := newCandidates db deck_id user_id
    if shuffle then (σc new_cards).head? else new_cards.head?

/-- The candidate query of `get_next_card_fast_review`: cards of the deck
with no review row of the user last reviewed at or after today's start. -/
def fastCandidates (db : DB) (deck_id user_id : ℕ) (today_start : ℤ) : List Card :=
  (deckCards db deck_id user_id).filter (fun c =>
    !db.reviews.any (fun r =>
      r.user_id == user_id && r.card_id == c.id && today_start ≤ r.last_reviewed))

/-- `StudyService.get_next_card_fast_review`. -/
def get_next_card_fast_review
    (σc : List Card → List Card) (db : DB) (deck_id user_id : ℕ)
    (today_start : ℤ) (shuffle : Bool) : Option Card :=
  let cands := fastCandidates db deck_id user_id today_start
  if shuffle then (σc cands).head? else cands.head?

/-- Key predicate of the `(card_id, user_id)` review lookup. -/
def reviewKey (card_id user_id : ℕ) (r : CardReview) : Bool :=
  r.card_id == card_id && r.user_id == user_id

/-- `CardReview.query.filter(card_id, user_id).first()`. -/
def findReview (db : DB) (card_id user_id : ℕ) : Option CardReview :=
  db.reviews.find? (reviewKey card_id user_id)

/-- Mutating the fetched ORM row: update the first matching row in place. -/
def updateFirst (p : CardReview → Bool) (f : CardReview → CardReview) :
    List CardReview → List CardReview
  | [] => []
  | r :: rs => if p r then f r :: rs else r :: updateFirst p f rs

/-- A freshly constructed `CardReview(...)` with the model defaults
`ease_factor=2.5`, `interval=1`, `repetitions=0`, no due date. -/
def newReview (card_id user_id : ℕ) (quality : Option ℤ) (now : ℤ) : CardReview :=
  { card_id := card_id, user_id := user_id, ease_factor := 5/2, interval := 1,
    repetitions := 0, due_date := none, quality := quality, last_reviewed := now }

/-- `StudyService.submit_review_spaced_repetition`: fetch-or-create the row,
run SM-2 on its current fields, overwrite all of them. Returns the new state
and `(next_review_in_days, ease_factor, repetitions)`. -/
def submit_review_spaced_repetition (db : DB) (card_id user_id : ℕ)
    (quality : ℤ) (now : ℤ) : DB × (ℤ × ℚ × ℕ) :=
  let cur :=
    match findReview db card_id user_id with
    | some r => r
    | none => newReview card_id user_id none now
  let res := calculate_next_interval cur.ease_factor cur.interval cur.repetitions quality now
  let upd := fun r => { r with
    ease_factor := res.1, interval := res.2.1, repetitions := res.2.2.1,
    due_date := some res.2.2.2, quality := some quality, last_reviewed := now }
  let db' :=
    match findReview db card_id user_id with
    | some _ => { db with reviews := updateFirst (reviewKey card_id user_id) upd db.reviews }
    | none => { db with reviews := db.reviews ++ [upd (newReview card_id user_id none now)] }
  (db', (res.2.1, res.1, res.2.2.1))

/-- `StudyService.submit_review_fast`: fetch-or-create (created rows get
`quality = 4`), then only set `last_reviewed = now`. -/
def submit_review_fast (db : DB) (card_id user_id : ℕ) (now : ℤ) : DB :=
  let upd := fun (r : CardReview) => { r with last_reviewed := now }
  match findReview db card_id user_id with
  | some _ => { db with reviews := updateFirst (reviewKey card_id user_id) upd db.reviews }
  | none => { db with reviews := db.reviews ++ [newReview card_id user_id (some 4) now] }

/-- Python's `s.strip().lower()`. -/
def pyNorm (s : String) : String := s.trim.toLower

/-- Setting `last_reviewed = now` and `quality = q` on a fetched row. -/
def touchReview (q now : ℤ) (r : CardReview) : CardReview :=
  { r with last_reviewed := now, quality := some q }

/-- `StudyService.submit_quiz_answer`: compare the normalized answers,
fetch-or-create the review row, set only `last_reviewed` and `quality`
(5 when correct, else 0). Returns the new state and, when the card exists,
`(correct, expected_answer)`. -/
def submit_quiz_answer (db : DB) (card_id user_id : ℕ) (user_answer : String)
    (now : ℤ) : DB × Option (Bool × String) :=
  match db.cards.find? (fun c => c.id == card_id && c.user_id == user_id) with
  | none => (db, none)
  | some card =>
    let correct := pyNorm card.answer == pyNorm user_answer
    let upd := touchReview (if correct then 5 else 0) now
    let db' :=
      match findReview db card_id user_id with
      | some _ => { db with reviews := updateFirst (reviewKey card_id user_id) upd db.reviews }
      | none => { db with reviews := db.reviews ++ [upd (newReview card_id user_id none now)] }
    (db', some (correct, card.answer))

/-- The outcome dictionaries of `POST /study/review`. -/
inductive StudyOutcome where
  | spaced (next_review_in_days : ℤ) (ease_factor : ℚ) (repetitions : ℕ)
  | fast
  | quiz (correct : Bool) (expected_answer : String)
deriving Repr, DecidableEq

/-- The `submit_study_review` route of `app/cards/routes.py`: card-ownership
check, then mode dispatch with validation before any service call; an
`HTTPException` is an `Except.error` carrying its detail string, and the
returned state on an error path is the untouched input state. -/
def submit_study_review (db : DB) (card_id user_id : ℕ) (mode : String)
    (quality : Option ℤ) (answer : Option String) (now : ℤ) :
    DB × Except String StudyOutcome :=
  match db.cards.find? (fun c => c.id == card_id && c.user_id == user_id) with
  | none => (db, .error "Card not found")
  | some _ =>
    if mode == "spaced" then
      match quality with
      | none => (db, .error "Quality rating required for spaced repetition")
      | some q =>
        if q < 0 || 5 < q then (db, .error "Quality must be between 0 and 5")
        else
          let res := submit_review_spaced_repetition db card_id user_id q now
          (res.1, .ok (.spaced res.2.1 res.2.2.1 res.2.2.2))
    else if mode == "fast" then
      (submit_review_fast db card_id user_id now, .ok .fast)
    else if mode == "quiz" || mode == "exam" then
      match answer with
      | none => (db, .error "Answer required for quiz/exam mode")
      | some a =>
        let res := submit_quiz_answer db card_id user_id a now
        match res.2 with
        | some o => (res.1, .ok (.quiz o.1 o.2))
        | none => (res.1, .error "Card not found")
    else (db, .error "Invalid study mode")

/-- `StudyService.get_study_stats`: `(new, to_review, done)` counts. -/
def get_study_stats (db : DB) (deck_id user_id : ℕ) (now today_start : ℤ) :
    ℕ × ℕ × ℕ :=
  let card_ids := (deckCards db deck_id user_id).map (fun c => c.id)
  if card_ids.isEmpty then (0, 0, 0)
  else
    let reviewed_card_ids :=
      ((db.reviews.filter (fun r => card_ids.contains r.card_id && r.user_id == user_id)).map
        (fun r => r.card_id)).dedup
    let new_count := card_ids.length - reviewed_card_ids.length
    let to_review_count := db.reviews.countP (fun r =>
      card_ids.contains r.card_id && r.user_id == user_id && dueLe r now)
    let done_count := db.reviews.countP (fun r =>
      card_ids.contains r.card_id && r.user_id == user_id &&
      decide (today_start ≤ r.last_reviewed))
    (new_count, to_review_count, done_count)

/-- A submission that is not a spaced-mode review: fast or quiz/exam. -/
inductive NonSpacedOp where
  | fastOp (now : ℤ)
  | quizOp (answer : String) (now : ℤ)

/-- Apply one fast or quiz/exam submission for the pair to the state. -/
def applyNonSpaced (card_id user_id : ℕ) (db : DB) : NonSpacedOp → DB
  | .fastOp now => submit_review_fast db card_id user_id now
  | .quizOp a now => (submit_quiz_answer db card_id user_id a now).1

/-- Apply a sequence of fast or quiz/exam submissions for the pair. -/
def applyNonSpacedSeq (card_id user_id : ℕ) (db : DB) (ops : List NonSpacedOp) : DB :=
  ops.foldl (applyNonSpaced card_id user_id) db

/-- Apply a sequence of quiz/exam submissions `(answer, now)` for the pair. -/
def applyQuizSeq (card_id user_id : ℕ) (db : DB) (subs : List (String × ℤ)) : DB :=
  subs.foldl (fun d su => (submit_quiz_answer d card_id user_id su.1 su.2).1) db

/-- The SM-2 scheduling fields of a review row. -/
def projSM (r : CardReview) : ℚ × ℤ × ℕ := (r.ease_factor, r.interval, r.repetitions)

/-- C1: the Interval Calculator follows the SM-2 law of the spec: the new ease
is `max(1.3, ease + (0.1 - (5 - quality) * (0.08 + (5 - quality) * 0.02)))`;
`quality < 3` resets repetitions to 0 and the interval to 1; otherwise
repetitions increment and the interval is 1, 6, or `round(interval * new_ease)`
with the prior interval times the newly computed ease; the due date is
`now + new_interval` days; and `advance(2.5, 1, 0, 5)` gives ease 2.6,
interval 1, repetitions 1. -/
theorem calculate_next_interval_spec (ease : ℚ) (interval : ℤ) (reps : ℕ)
    (quality : ℤ) (now : ℤ) (hq0 : 0 ≤ quality) (hq5 : quality ≤ 5) :
    (calculate_next_interval ease interval reps quality now).1 =
      max (13/10)
        (ease + (1/10 - (5 - (quality : ℚ)) * (2/25 + (5 - (quality : ℚ)) * (1/50)))) ∧
    (quality < 3 →
      (calculate_next_interval ease interval reps quality now).2.2.1 = 0 ∧
      (calculate_next_interval ease interval reps quality now).2.1 = 1) ∧
    (3 ≤ quality →
      (calculate_next_interval ease interval reps quality now).2.2.1 = reps + 1 ∧
      (calculate_next_interval ease interval reps quality now).2.1 =
        (if reps + 1 = 1 then 1 else if reps + 1 = 2 then 6
         else pyRound ((interval : ℚ) *
           (calculate_next_interval ease interval reps quality now).1))) ∧
    (calculate_next_interval ease interval reps quality now).2.2.2 =
      now + (calculate_next_interval ease interval reps quality now).2.1 * oneDay ∧
    calculate_next_interval (5/2) 1 0 5 now = (13/5, 1, 1, now + oneDay) := by
  refine ⟨rfl, ?_, ?_, rfl, ?_⟩
  · intro h3
    simp [calculate_next_interval, h3]
  · intro h3
    have h3' : ¬ quality < 3 := not_lt.mpr h3
    by_cases h1 : reps + 1 = 1
    · simp [calculate_next_interval, h3', h1]
    · by_cases h2 : reps + 1 = 2
      · simp [calculate_next_interval, h3', h1, h2]
      · simp [calculate_next_interval, h3', h1, h2]
  · norm_num [calculate_next_interval, oneDay]

/-- Witness for `calculate_next_interval_spec` at a concrete input. -/
theorem calculate_next_interval_spec_witness :
    (calculate_next_interval (5/2) 1 0 5 0).2.2.1 = 0 + 1 := by
  have h := calculate_next_interval_spec (5/2) 1 0 5 0 (by decide) (by decide)
  exact (h.2.2.1 (by decide)).1

/-- C3 counterexample: quality 3 is in `[0,5)` but does not reset progress —
`calculate_next_interval(2.5, 1, 0, 3)` returns `new_repetitions = 1`, not 0. -/
theorem quality_three_does_not_reset :
    ¬ ((calculate_next_interval (5/2) 1 0 3 0).2.2.1 = 0 ∧
       (calculate_next_interval (5/2) 1 0 3 0).2.1 = 1) := by
  decide

/-- C3 amended: for every quality in `[0,3)` (a failing answer), the
calculator resets `new_repetitions` to 0 and `new_interval` to 1, for all
ease, interval and repetitions. -/
theorem quality_below_three_resets (ease : ℚ) (interval : ℤ) (reps : ℕ)
    (quality now : ℤ) (hq3 : quality < 3) :
    (calculate_next_interval ease interval reps quality now).2.2.1 = 0 ∧
    (calculate_next_interval ease interval reps quality now).2.1 = 1 := by
  simp [calculate_next_interval, hq3]

/-- Witness for `quality_below_three_resets` at quality 2. -/
theorem quality_below_three_resets_witness :
    (calculate_next_interval (5/2) 10 4 2 0).2.2.1 = 0 ∧
    (calculate_next_interval (5/2) 10 4 2 0).2.1 = 1 :=
  quality_below_three_resets (5/2) 10 4 2 0 (by decide)

theorem firstMinByDue_mem : ∀ {l : List CardReview} {r : CardReview},
    firstMinByDue l = some r → r ∈ l := by
  intro l
  induction l with
  | nil => intro r h; simp [firstMinByDue] at h
  | cons a rs ih =>
    intro r h
    rw [firstMinByDue] at h
    cases hm : firstMinByDue rs with
    | none => rw [hm] at h; simp at h; simp [h]
    | some m =>
      rw [hm] at h
      by_cases hlt : dueKey m < dueKey a
      · simp [hlt] at h
        exact List.mem_cons_of_mem a (h ▸ ih hm)
      · simp [hlt] at h
        simp [h]

theorem firstMinByDue_isSome {l : List CardReview} (h : l ≠ []) :
    (firstMinByDue l).isSome := by
  cases l with
  | nil => exact absurd rfl h
  | cons a rs =>
    rw [firstMinByDue]
    cases firstMinByDue rs with
    | none => rfl
    | some m =>
      by_cases hlt : dueKey m < dueKey a <;> simp [hlt]

theorem firstMinByDue_le : ∀ {l : List CardReview} {r : CardReview},
    firstMinByDue l = some r → ∀ x ∈ l, dueKey r ≤ dueKey x := by
  intro l
  induction l with
  | nil => intro r h; simp [firstMinByDue] at h
  | cons a rs ih =>
    intro r h x hx
    rw [firstMinByDue] at h
    cases hm : firstMinByDue rs with
    | none =>
      rw [hm] at h
      simp at h
      cases rs with
      | nil =>
        rcases List.mem_singleton.mp hx with rfl
        exact le_of_eq (by rw [h])
      | cons b bs =>
        have hs := firstMinByDue_isSome (l := b :: bs) (by simp)
        rw [hm] at hs
        exact absurd hs (by simp)
    | some m =>
      rw [hm] at h
      by_cases hlt : dueKey m < dueKey a
      · simp [hlt] at h
        subst h
        rcases List.mem_cons.mp hx with rfl | hx'
        · exact le_of_lt hlt
        · exact ih hm x hx'
      · simp [hlt] at h
        subst h
        rcases List.mem_cons.mp hx with rfl | hx'
        · exact le_rfl
        · exact le_trans (not_lt.mp hlt) (ih hm x hx')

theorem firstMinByDue_first : ∀ {l : List CardReview} {r : CardReview},
    firstMinByDue l = some r →
    ∃ l1 l2, l = l1 ++ r :: l2 ∧ ∀ x ∈ l1, dueKey r < dueKey x := by
  intro l
  induction l with
  | nil => intro r h; simp [firstMinByDue] at h
  | cons a rs ih =>
    intro r h
    rw [firstMinByDue] at h
    cases hm : firstMinByDue rs with
    | none =>
      rw [hm] at h
      simp at h
      exact ⟨[], rs, by simp [h], by simp⟩
    | some m =>
      rw [hm] at h
      by_cases hlt : dueKey m < dueKey a
      · simp [hlt] at h
        subst h
        obtain ⟨l1, l2, heq, hstrict⟩ := ih hm
        refine ⟨a :: l1, l2, by simp [heq], ?_⟩
        intro x hx
        rcases List.mem_cons.mp hx with rfl | hx'
        · exact hlt
        · exact hstrict x hx'
      · simp [hlt] at h
        subst h
        exact ⟨[], rs, rfl, by simp⟩

theorem mem_dueReviews {db : DB} {deck uid : ℕ} {now : ℤ} {r : CardReview} :
    r ∈ dueReviews db deck uid now ↔
      r ∈ db.reviews ∧ r.user_id = uid ∧ dueLe r now = true ∧
      ∃ c ∈ db.cards, c.id = r.card_id ∧ c.deck_id = deck ∧ c.user_id = uid := by
  simp [dueReviews, List.mem_filter, List.any_eq_true, and_assoc]

theorem findCard_eq_some {db : DB} {cid : ℕ} {c : Card} (h : findCard db cid = some c) :
    c ∈ db.cards ∧ c.id = cid :=
  ⟨List.mem_of_find?_eq_some h, by simpa using List.find?_some h⟩

theorem findCard_isSome {db : DB} {cid : ℕ} (c0 : Card) (h0 : c0 ∈ db.cards)
    (hid : c0.id = cid) : (findCard db cid).isSome := by
  unfold findCard
  rw [List.find?_isSome]
  exact ⟨c0, h0, by simp [hid]⟩

theorem head?_mem_of_perm {α : Type} {l1 l2 : List α} (hp : l1.Perm l2) (hne : l2 ≠ []) :
    ∃ x, l1.head? = some x ∧ x ∈ l2 := by
  cases l1 with
  | nil => exact absurd hp.symm.eq_nil hne
  | cons a as => exact ⟨a, rfl, hp.mem_iff.mp (List.mem_cons_self a as)⟩

/-- C2: in spaced mode, whenever some card of the deck has a review row with
`due_date ≤ now`, the scheduler returns a card carrying a due review row —
never a card with no review row — for both shuffle settings; `σr` models the
random ordering and may be any permutation. -/
theorem spaced_mode_prefers_due_cards
    (σr : List CardReview → List CardReview) (σc : List Card → List Card)
    (db : DB) (deck uid : ℕ) (now : ℤ) (shuffle : Bool)
    (hperm : ∀ l, (σr l).Perm l)
    (hnodup : (db.cards.map Card.id).Nodup)
    (hdue : dueReviews db deck uid now ≠ []) :
    ∃ c r, get_next_card_spaced_repetition σr σc db deck uid now shuffle = some c ∧
      r ∈ dueReviews db deck uid now ∧ r.card_id = c.id ∧
      c ∈ deckCards db deck uid ∧ hasReview db c.id uid = true := by
  have hsel : ∃ r, (if shuffle then (σr (dueReviews db deck uid now)).head?
      else firstMinByDue (dueReviews db deck uid now)) = some r ∧
      r ∈ dueReviews db deck uid now := by
    cases shuffle with
    | false =>
      obtain ⟨r, hr⟩ := Option.isSome_iff_exists.mp (firstMinByDue_isSome hdue)
      exact ⟨r, by simpa using hr, firstMinByDue_mem hr⟩
    | true =>
      obtain ⟨r, hr, hmem⟩ := head?_mem_of_perm (hperm (dueReviews db deck uid now)) hdue
      exact ⟨r, by simpa using hr, hmem⟩
  obtain ⟨r, hr, hrmem⟩ := hsel
  obtain ⟨hrrev, hruid, hrdue, c0, hc0mem, hc0id, hc0deck, hc0uid⟩ := mem_dueReviews.mp hrmem
  obtain ⟨c, hc⟩ := Option.isSome_iff_exists.mp (findCard_isSome c0 hc0mem hc0id)
  obtain ⟨hcmem, hcid⟩ := findCard_eq_some hc
  have hceq : c = c0 :=
    List.inj_on_of_nodup_map hnodup hcmem hc0mem (by rw [hcid, hc0id])
  refine ⟨c, r, ?_, hrmem, hcid.symm, ?_, ?_⟩
  · unfold get_next_card_spaced_repetition
    dsimp only
    rw [hr]
    exact hc
  · rw [hceq]
    simp [deckCards, List.mem_filter, hc0mem, hc0deck, hc0uid]
  · simp only [hasReview, List.any_eq_true]
    exact ⟨r, hrrev, by simp [hcid, hruid]⟩

/-- Witness for `spaced_mode_prefers_due_cards`: one due card and one new
card; the due one is returned. -/
theorem spaced_mode_prefers_due_cards_witness :
    ∃ c r, get_next_card_spaced_repetition id id
        ⟨[⟨1, 7, 3, "a", 0⟩, ⟨2, 7, 3, "b", 1⟩],
         [⟨1, 7, 5/2, 1, 0, some 0, none, 0⟩]⟩ 3 7 10 false = some c ∧
      r ∈ dueReviews ⟨[⟨1, 7, 3, "a", 0⟩, ⟨2, 7, 3, "b", 1⟩],
         [⟨1, 7, 5/2, 1, 0, some 0, none, 0⟩]⟩ 3 7 10 ∧ r.card_id = c.id ∧
      c ∈ deckCards ⟨[⟨1, 7, 3, "a", 0⟩, ⟨2, 7, 3, "b", 1⟩],
         [⟨1, 7, 5/2, 1, 0, some 0, none, 0⟩]⟩ 3 7 ∧
      hasReview ⟨[⟨1, 7, 3, "a", 0⟩, ⟨2, 7, 3, "b", 1⟩],
         [⟨1, 7, 5/2, 1, 0, some 0, none, 0⟩]⟩ c.id 7 = true :=
  spaced_mode_prefers_due_cards id id
    ⟨[⟨1, 7, 3, "a", 0⟩, ⟨2, 7, 3, "b", 1⟩],
     [⟨1, 7, 5/2, 1, 0, some 0, none, 0⟩]⟩ 3 7 10 false
    (fun l => List.Perm.refl l) (by decide) (by decide)

/-- C8 counterexample: two reviews share the minimal `due_date`; the review
rows were inserted with card 2's row before card 1's, and the scheduler (no
shuffle) returns card 2, not the smallest card id 1. The source orders only
by `due_date`, with no tie-break on `card_id`. -/
theorem spaced_tie_not_broken_by_card_id :
    (get_next_card_spaced_repetition id id
        ⟨[⟨1, 7, 3, "a", 0⟩, ⟨2, 7, 3, "b", 1⟩],
         [⟨2, 7, 5/2, 1, 0, some 0, none, 0⟩, ⟨1, 7, 5/2, 1, 0, some 0, none, 0⟩]⟩
        3 7 10 false).map Card.id = some 2 ∧
    dueReviews ⟨[⟨1, 7, 3, "a", 0⟩, ⟨2, 7, 3, "b", 1⟩],
         [⟨2, 7, 5/2, 1, 0, some 0, none, 0⟩, ⟨1, 7, 5/2, 1, 0, some 0, none, 0⟩]⟩
        3 7 10 =
      [⟨2, 7, 5/2, 1, 0, some 0, none, 0⟩, ⟨1, 7, 5/2, 1, 0, some 0, none, 0⟩] := by
  constructor
  · rfl
  · rfl

/-- C8 amended: in spaced mode with shuffle false and a non-empty due set,
the scheduler returns the card of a review with the smallest `due_date`;
among ties it returns the earliest review row in insertion order (the rows
before it in the due query all have a strictly larger `due_date`) — the tie
is not broken by `card_id`. -/
theorem spaced_no_shuffle_picks_min_due
    (σr : List CardReview → List CardReview) (σc : List Card → List Card)
    (db : DB) (deck uid : ℕ) (now : ℤ)
    (hdue : dueReviews db deck uid now ≠ []) :
    ∃ r c l1 l2, get_next_card_spaced_repetition σr σc db deck uid now false = some c ∧
      dueReviews db deck uid now = l1 ++ r :: l2 ∧ r.card_id = c.id ∧
      (∀ x ∈ dueReviews db deck uid now, dueKey r ≤ dueKey x) ∧
      (∀ x ∈ l1, dueKey r < dueKey x) := by
  obtain ⟨r, hr⟩ := Option.isSome_iff_exists.mp (firstMinByDue_isSome hdue)
  have hrmem := firstMinByDue_mem hr
  obtain ⟨hrrev, hruid, hrdue, c0, hc0mem, hc0id, hc0deck, hc0uid⟩ := mem_dueReviews.mp hrmem
  obtain ⟨c, hc⟩ := Option.isSome_iff_exists.mp (findCard_isSome c0 hc0mem hc0id)
  obtain ⟨hcmem, hcid⟩ := findCard_eq_some hc
  obtain ⟨l1, l2, hsplit, hstrict⟩ := firstMinByDue_first hr
  refine ⟨r, c, l1, l2, ?_, hsplit, hcid.symm, firstMinByDue_le hr, hstrict⟩
  unfold get_next_card_spaced_repetition
  dsimp only
  rw [hr]
  exact hc

/-- Witness for `spaced_no_shuffle_picks_min_due` on a two-review state. -/
theorem spaced_no_shuffle_picks_min_due_witness :
    ∃ r c l1 l2, get_next_card_spaced_repetition id id
        ⟨[⟨1, 7, 3, "a", 0⟩, ⟨2, 7, 3, "b", 1⟩],
         [⟨2, 7, 5/2, 1, 0, some 5, none, 0⟩, ⟨1, 7, 5/2, 1, 0, some 3, none, 0⟩]⟩
        3 7 10 false = some c ∧
      dueReviews ⟨[⟨1, 7, 3, "a", 0⟩, ⟨2, 7, 3, "b", 1⟩],
         [⟨2, 7, 5/2, 1, 0, some 5, none, 0⟩, ⟨1, 7, 5/2, 1, 0, some 3, none, 0⟩]⟩
        3 7 10 = l1 ++ r :: l2 ∧ r.card_id = c.id ∧
      (∀ x ∈ dueReviews ⟨[⟨1, 7, 3, "a", 0⟩, ⟨2, 7, 3, "b", 1⟩],
         [⟨2, 7, 5/2, 1, 0, some 5, none, 0⟩, ⟨1, 7, 5/2, 1, 0, some 3, none, 0⟩]⟩
        3 7 10, dueKey r ≤ dueKey x) ∧
      (∀ x ∈ l1, dueKey r < dueKey x) :=
  spaced_no_shuffle_picks_min_due id id
    ⟨[⟨1, 7, 3, "a", 0⟩, ⟨2, 7, 3, "b", 1⟩],
     [⟨2, 7, 5/2, 1, 0, some 5, none, 0⟩, ⟨1, 7, 5/2, 1, 0, some 3, none, 0⟩]⟩
    3 7 10 (by decide)

theorem head?_min_of_sorted {l : List Card}
    (hs : l.Pairwise (fun a b => a.created_at ≤ b.created_at)) (hne : l ≠ []) :
    ∃ c, l.head? = some c ∧ c ∈ l ∧ ∀ x ∈ l, c.created_at ≤ x.created_at := by
  cases l with
  | nil => exact absurd rfl hne
  | cons a as =>
    refine ⟨a, rfl, List.mem_cons_self a as, ?_⟩
    intro x hx
    rcases List.mem_cons.mp hx with rfl | hx'
    · exact le_rfl
    · exact (List.pairwise_cons.mp hs).1 x hx'

/-- C7: with shuffle false the scheduler picks by creation order, earliest
created first (the row lists are in insertion order, so this holds whenever
the cards table is sorted by `created_at`): in spaced mode among the new
cards when nothing is due, and in fast mode among the cards not yet touched
today. -/
theorem no_shuffle_picks_earliest_created
    (σr : List CardReview → List CardReview) (σc : List Card → List Card)
    (db : DB) (deck uid : ℕ) (now today_start : ℤ)
    (hsorted : db.cards.Pairwise (fun a b => a.created_at ≤ b.created_at)) :
    (dueReviews db deck uid now = [] → newCandidates db deck uid ≠ [] →
      ∃ c, get_next_card_spaced_repetition σr σc db deck uid now false = some c ∧
        c ∈ newCandidates db deck uid ∧
        ∀ x ∈ newCandidates db deck uid, c.created_at ≤ x.created_at) ∧
    (fastCandidates db deck uid today_start ≠ [] →
      ∃ c, get_next_card_fast_review σc db deck uid today_start false = some c ∧
        c ∈ fastCandidates db deck uid today_start ∧
        ∀ x ∈ fastCandidates db deck uid today_start, c.created_at ≤ x.created_at) := by
  constructor
  · intro hdue hne
    have hsub : (newCandidates db deck uid).Sublist db.cards :=
      (List.filter_sublist _).trans (List.filter_sublist _)
    obtain ⟨c, hc, hcmem, hcmin⟩ := head?_min_of_sorted (hsorted.sublist hsub) hne
    refine ⟨c, ?_, hcmem, hcmin⟩
    unfold get_next_card_spaced_repetition
    dsimp only
    rw [hdue]
    simpa [firstMinByDue] using hc
  · intro hne
    have hsub : (fastCandidates db deck uid today_start).Sublist db.cards :=
      (List.filter_sublist _).trans (List.filter_sublist _)
    obtain ⟨c, hc, hcmem, hcmin⟩ := head?_min_of_sorted (hsorted.sublist hsub) hne
    exact ⟨c, by simpa [get_next_card_fast_review] using hc, hcmem, hcmin⟩

/-- Witness for `no_shuffle_picks_earliest_created`: two new cards, the
earlier-created one is picked in both modes. -/
theorem no_shuffle_picks_earliest_created_witness :
    (dueReviews ⟨[⟨5, 7, 3, "a", 2⟩, ⟨6, 7, 3, "b", 4⟩], []⟩ 3 7 10 = [] →
      newCandidates ⟨[⟨5, 7, 3, "a", 2⟩, ⟨6, 7, 3, "b", 4⟩], []⟩ 3 7 ≠ [] →
      ∃ c, get_next_card_spaced_repetition id id
          ⟨[⟨5, 7, 3, "a", 2⟩, ⟨6, 7, 3, "b", 4⟩], []⟩ 3 7 10 false = some c ∧
        c ∈ newCandidates ⟨[⟨5, 7, 3, "a", 2⟩, ⟨6, 7, 3, "b", 4⟩], []⟩ 3 7 ∧
        ∀ x ∈ newCandidates ⟨[⟨5, 7, 3, "a", 2⟩, ⟨6, 7, 3, "b", 4⟩], []⟩ 3 7,
          c.created_at ≤ x.created_at) ∧
    (fastCandidates ⟨[⟨5, 7, 3, "a", 2⟩, ⟨6, 7, 3, "b", 4⟩], []⟩ 3 7 0 ≠ [] →
      ∃ c, get_next_card_fast_review id
          ⟨[⟨5, 7, 3, "a", 2⟩, ⟨6, 7, 3, "b", 4⟩], []⟩ 3 7 0 false = some c ∧
        c ∈ fastCandidates ⟨[⟨5, 7, 3, "a", 2⟩, ⟨6, 7, 3, "b", 4⟩], []⟩ 3 7 0 ∧
        ∀ x ∈ fastCandidates ⟨[⟨5, 7, 3, "a", 2⟩, ⟨6, 7, 3, "b", 4⟩], []⟩ 3 7 0,
          c.created_at ≤ x.created_at) :=
  no_shuffle_picks_earliest_created id id
    ⟨[⟨5, 7, 3, "a", 2⟩, ⟨6, 7, 3, "b", 4⟩], []⟩ 3 7 10 0 (by decide)

theorem find?_updateFirst {p : CardReview → Bool} {f : CardReview → CardReview}
    (hpf : ∀ r, p (f r) = p r) :
    ∀ {l : List CardReview}, (updateFirst p f l).find? p = (l.find? p).map f := by
  intro l
  induction l with
  | nil => simp [updateFirst]
  | cons a as ih =>
    by_cases hp : p a
    · rw [updateFirst, if_pos hp, List.find?_cons_of_pos _ ((hpf a).trans hp),
        List.find?_cons_of_pos _ hp, Option.map_some']
    · rw [updateFirst, if_neg hp, List.find?_cons_of_neg _ hp,
        List.find?_cons_of_neg _ hp, ih]

theorem find?_append_of_none {α : Type} {p : α → Bool} {l1 l2 : List α}
    (h : l1.find? p = none) : (l1 ++ l2).find? p = l2.find? p := by
  rw [List.find?_append, h, Option.none_or]

theorem find?_updateFirst_touch (cid uid : ℕ) (q now : ℤ) (l : List CardReview) :
    (updateFirst (reviewKey cid uid) (touchReview q now) l).find? (reviewKey cid uid) =
      (l.find? (reviewKey cid uid)).map (touchReview q now) := by
  apply find?_updateFirst
  intro r
  rfl

/-- One quiz/exam submission leaves the SM-2 fields of the pair's review row
unchanged, or creates the row with the defaults `(2.5, 1, 0)`. -/
theorem submit_quiz_projSM (db : DB) (cid uid : ℕ) (a : String) (now : ℤ) :
    (findReview (submit_quiz_answer db cid uid a now).1 cid uid).map projSM =
      (findReview db cid uid).map projSM ∨
    (findReview db cid uid = none ∧
      (findReview (submit_quiz_answer db cid uid a now).1 cid uid).map projSM =
        some (5/2, 1, 0)) := by
  unfold submit_quiz_answer
  cases hcard : db.cards.find? (fun c => c.id == cid && c.user_id == uid) with
  | none => left; rfl
  | some card =>
    dsimp only
    cases hfr : findReview db cid uid with
    | some r =>
      left
      dsimp only
      unfold findReview at hfr ⊢
      dsimp only
      rw [find?_updateFirst_touch, hfr]
      rfl
    | none =>
      right
      refine ⟨rfl, ?_⟩
      unfold findReview at hfr ⊢
      dsimp only
      rw [find?_append_of_none hfr]
      simp [reviewKey, newReview, projSM, touchReview]

/-- C4: across every sequence of quiz/exam submissions for a `(card, user)`
pair, the review row's `ease_factor`, `interval` and `repetitions` keep
their prior values, or the creation defaults `(2.5, 1, 0)` when the row did
not exist before the sequence. -/
theorem quiz_never_changes_sm2_fields (db : DB) (cid uid : ℕ)
    (subs : List (String × ℤ)) :
    (findReview (applyQuizSeq cid uid db subs) cid uid).map projSM =
      (findReview db cid uid).map projSM ∨
    (findReview db cid uid = none ∧
      (findReview (applyQuizSeq cid uid db subs) cid uid).map projSM =
        some (5/2, 1, 0)) := by
  induction subs generalizing db with
  | nil => left; rfl
  | cons su rest ih =>
    have hseq : applyQuizSeq cid uid db (su :: rest) =
        applyQuizSeq cid uid (submit_quiz_answer db cid uid su.1 su.2).1 rest := rfl
    rw [hseq]
    rcases submit_quiz_projSM db cid uid su.1 su.2 with h1 | ⟨h1, h2⟩
    · rcases ih ((submit_quiz_answer db cid uid su.1 su.2).1) with h3 | ⟨h3, h4⟩
      · left; rw [h3, h1]
      · right
        refine ⟨?_, h4⟩
        rw [h3] at h1
        exact Option.map_eq_none'.mp h1.symm
    · rcases ih ((submit_quiz_answer db cid uid su.1 su.2).1) with h3 | ⟨h3, h4⟩
      · right; exact ⟨h1, h3.trans h2⟩
      · right; exact ⟨h1, h4⟩

/-- C9: for every submitted answer and every card, quiz/exam submit returns
`correct = true` exactly when the trimmed, lowercased submitted answer
equals the trimmed, lowercased stored answer, and the result carries the
stored answer as `expected_answer`. -/
theorem quiz_answer_correctness (db : DB) (cid uid : ℕ) (ans : String)
    (now : ℤ) (card : Card)
    (hcard : db.cards.find? (fun c => c.id == cid && c.user_id == uid) = some card) :
    ∃ b, (submit_quiz_answer db cid uid ans now).2 = some (b, card.answer) ∧
      (b = true ↔ pyNorm ans = pyNorm card.answer) := by
  unfold submit_quiz_answer
  rw [hcard]
  dsimp only
  refine ⟨pyNorm card.answer == pyNorm ans, rfl, ?_⟩
  simp only [beq_iff_eq]
  exact eq_comm

/-- Witness for `quiz_answer_correctness`: answer differing in case and
surrounding whitespace is judged correct. -/
theorem quiz_answer_correctness_witness :
    ∃ b, (submit_quiz_answer ⟨[⟨1, 7, 3, "Paris", 0⟩], []⟩ 1 7 "  paris " 5).2 =
        some (b, "Paris") ∧
      (b = true ↔ pyNorm "  paris " = pyNorm "Paris") :=
  quiz_answer_correctness ⟨[⟨1, 7, 3, "Paris", 0⟩], []⟩ 1 7 "  paris " 5
    ⟨1, 7, 3, "Paris", 0⟩ rfl

theorem mem_updateFirst {p : CardReview → Bool} {f : CardReview → CardReview} :
    ∀ {l : List CardReview} {r : CardReview}, r ∈ updateFirst p f l →
      r ∈ l ∨ ∃ x, x ∈ l ∧ r = f x := by
  intro l
  induction l with
  | nil => intro r h; simp [updateFirst] at h
  | cons a as ih =>
    intro r h
    rw [updateFirst] at h
    by_cases hp : p a
    · rw [if_pos hp] at h
      rcases List.mem_cons.mp h with rfl | h'
      · exact Or.inr ⟨a, List.mem_cons_self a as, rfl⟩
      · exact Or.inl (List.mem_cons_of_mem a h')
    · rw [if_neg hp] at h
      rcases List.mem_cons.mp h with rfl | h'
      · exact Or.inl (List.mem_cons_self r as)
      · rcases ih h' with h2 | ⟨x, hx, rfl⟩
        · exact Or.inl (List.mem_cons_of_mem a h2)
        · exact Or.inr ⟨x, List.mem_cons_of_mem a hx, rfl⟩

/-- One fast or quiz/exam submission preserves "every review row of the
pair has no due date". -/
theorem applyNonSpaced_keeps_due_none (cid uid : ℕ) (op : NonSpacedOp) (db : DB)
    (h : ∀ r ∈ db.reviews, reviewKey cid uid r = true → r.due_date = none) :
    ∀ r ∈ (applyNonSpaced cid uid db op).reviews,
      reviewKey cid uid r = true → r.due_date = none := by
  cases op with
  | fastOp now =>
    intro r hr hk
    unfold applyNonSpaced submit_review_fast at hr
    dsimp only at hr
    split at hr
    · rcases mem_updateFirst hr with h1 | ⟨x, hx, rfl⟩
      · exact h r h1 hk
      · exact h x hx hk
    · rcases List.mem_append.mp hr with h1 | h1
      · exact h r h1 hk
      · rcases List.mem_singleton.mp h1 with rfl
        rfl
  | quizOp a now =>
    intro r hr hk
    unfold applyNonSpaced submit_quiz_answer at hr
    dsimp only at hr
    split at hr
    · exact h r hr hk
    · dsimp only at hr
      split at hr
      · rcases mem_updateFirst hr with h1 | ⟨x, hx, rfl⟩
        · exact h r h1 hk
        · exact h x hx hk
      · rcases List.mem_append.mp hr with h1 | h1
        · exact h r h1 hk
        · rcases List.mem_singleton.mp h1 with rfl
          rfl

theorem applyNonSpacedSeq_keeps_due_none (cid uid : ℕ) (ops : List NonSpacedOp) :
    ∀ db : DB,
      (∀ r ∈ db.reviews, reviewKey cid uid r = true → r.due_date = none) →
      ∀ r ∈ (applyNonSpacedSeq cid uid db ops).reviews,
        reviewKey cid uid r = true → r.due_date = none := by
  induction ops with
  | nil => intro db h; exact h
  | cons op rest ih =>
    intro db h
    exact ih _ (applyNonSpaced_keeps_due_none cid uid op db h)

/-- C10: a review row created and only ever updated by fast or quiz/exam
submissions keeps `due_date = none` after every such operation; hence its
rows never satisfy the `due_date <= now` filter counted by the Stats
Aggregator's `to_review`, and the spaced-mode due candidate set never
contains the card. -/
theorem fast_quiz_reviews_never_due (db : DB) (cid uid : ℕ)
    (ops : List NonSpacedOp) (h : findReview db cid uid = none) :
    (∀ r ∈ (applyNonSpacedSeq cid uid db ops).reviews,
        reviewKey cid uid r = true → r.due_date = none) ∧
    (∀ now, (applyNonSpacedSeq cid uid db ops).reviews.countP
        (fun r => reviewKey cid uid r && dueLe r now) = 0) ∧
    (∀ deck now r, r ∈ dueReviews (applyNonSpacedSeq cid uid db ops) deck uid now →
        r.card_id ≠ cid) := by
  have h0 : ∀ r ∈ db.reviews, reviewKey cid uid r = true → r.due_date = none := by
    intro r hr hk
    exact absurd hk (List.find?_eq_none.mp h r hr)
  have hinv := applyNonSpacedSeq_keeps_due_none cid uid ops db h0
  refine ⟨hinv, ?_, ?_⟩
  · intro now
    rw [List.countP_eq_zero]
    intro r hr
    simp only [Bool.and_eq_true, not_and]
    intro hk
    rw [dueLe, hinv r hr hk]
    simp
  · intro deck now r hr heq
    obtain ⟨hrrev, hruid, hrdue, -⟩ := mem_dueReviews.mp hr
    have hk : reviewKey cid uid r = true := by simp [reviewKey, heq, hruid]
    rw [dueLe, hinv r hrrev hk] at hrdue
    exact Bool.false_ne_true hrdue

/-- Witness for `fast_quiz_reviews_never_due`: one fast and one quiz
submission on a fresh card. -/
theorem fast_quiz_reviews_never_due_witness :
    (∀ r ∈ (applyNonSpacedSeq 1 7 ⟨[⟨1, 7, 3, "a", 0⟩], []⟩
        [.fastOp 3, .quizOp "b" 4]).reviews,
        reviewKey 1 7 r = true → r.due_date = none) ∧
    (∀ now, (applyNonSpacedSeq 1 7 ⟨[⟨1, 7, 3, "a", 0⟩], []⟩
        [.fastOp 3, .quizOp "b" 4]).reviews.countP
        (fun r => reviewKey 1 7 r && dueLe r now) = 0) ∧
    (∀ deck now r, r ∈ dueReviews (applyNonSpacedSeq 1 7 ⟨[⟨1, 7, 3, "a", 0⟩], []⟩
        [.fastOp 3, .quizOp "b" 4]) deck 7 now → r.card_id ≠ 1) :=
  fast_quiz_reviews_never_due ⟨[⟨1, 7, 3, "a", 0⟩], []⟩ 1 7
    [.fastOp 3, .quizOp "b" 4] rfl

/-- C5: a spaced-mode submission with `quality` missing, or below 0, or
above 5, is rejected by the route with a validation error before any
service call: the returned state is the unchanged input state. -/
theorem spaced_validation_no_mutation (db : DB) (cid uid : ℕ)
    (ans : Option String) (now : ℤ) (card : Card)
    (hcard : db.cards.find? (fun c => c.id == cid && c.user_id == uid) = some card) :
    ((submit_study_review db cid uid "spaced" none ans now).1 = db ∧
      (submit_study_review db cid uid "spaced" none ans now).2 =
        .error "Quality rating required for spaced repetition") ∧
    (∀ q : ℤ, q < 0 ∨ 5 < q →
      (submit_study_review db cid uid "spaced" (some q) ans now).1 = db ∧
      (submit_study_review db cid uid "spaced" (some q) ans now).2 =
        .error "Quality must be between 0 and 5") := by
  constructor
  · unfold submit_study_review
    rw [hcard]
    exact ⟨rfl, rfl⟩
  · intro q hq
    have hcond : (q < 0 || 5 < q) = true := by
      rcases hq with h | h <;> simp [h]
    unfold submit_study_review
    rw [hcard]
    dsimp only
    rw [if_pos hcond]
    exact ⟨rfl, rfl⟩

/-- Witness for `spaced_validation_no_mutation` at `quality = 6`. -/
theorem spaced_validation_no_mutation_witness :
    (submit_study_review ⟨[⟨1, 7, 3, "a", 0⟩], []⟩ 1 7 "spaced" (some 6) none 0).1 =
        ⟨[⟨1, 7, 3, "a", 0⟩], []⟩ ∧
    (submit_study_review ⟨[⟨1, 7, 3, "a", 0⟩], []⟩ 1 7 "spaced" (some 6) none 0).2 =
        .error "Quality must be between 0 and 5" :=
  (spaced_validation_no_mutation ⟨[⟨1, 7, 3, "a", 0⟩], []⟩ 1 7 none 0
    ⟨1, 7, 3, "a", 0⟩ rfl).2 6 (Or.inr (by decide))

/-- The deduplicated reviewed-card-id list of `get_study_stats` counts
exactly the deck cards having a review row of the user. -/
theorem dedup_reviewed_length (db : DB) (deck uid : ℕ)
    (hnodup : ((deckCards db deck uid).map (fun c => c.id)).Nodup) :
    ((db.reviews.filter (fun r =>
        ((deckCards db deck uid).map (fun c => c.id)).contains r.card_id &&
        r.user_id == uid)).map (fun r => r.card_id)).dedup.length =
    ((deckCards db deck uid).filter
      (fun c => db.reviews.any (fun r => r.card_id == c.id && r.user_id == uid))).length := by
  have hsub : (((deckCards db deck uid).filter
      (fun c => db.reviews.any (fun r => r.card_id == c.id && r.user_id == uid))).map
        (fun c => c.id)).Sublist ((deckCards db deck uid).map (fun c => c.id)) :=
    (List.filter_sublist _).map _
  have hnd2 := hnodup.sublist hsub
  rw [← List.length_map (((deckCards db deck uid).filter
      (fun c => db.reviews.any (fun r => r.card_id == c.id && r.user_id == uid))))
    (fun c => c.id)]
  rw [← List.card_toFinset, ← List.toFinset_card_of_nodup hnd2]
  congr 1
  ext i
  simp only [List.mem_toFinset, List.mem_map, List.mem_filter, Bool.and_eq_true,
    beq_iff_eq, List.any_eq_true, List.contains, List.elem_eq_mem, decide_eq_true_eq]
  constructor
  · rintro ⟨r, ⟨hrmem, ⟨hin, huid⟩⟩, rfl⟩
    obtain ⟨c, hc, hcid⟩ := hin
    exact ⟨c, ⟨hc, r, hrmem, hcid.symm, huid⟩, hcid⟩
  · rintro ⟨c, ⟨hc, r, hrmem, hcid, huid⟩, rfl⟩
    exact ⟨r, ⟨hrmem, ⟨⟨c, hc, hcid.symm⟩, huid⟩⟩, hcid⟩

/-- C6: `get_study_stats` returns `new` = deck card count minus the count
of distinct deck cards with a review row of the user, `to_review` = count
of review rows over those cards with `due_date <= now`, and `done` = count
of review rows over those cards last reviewed within the current local day
(no `last_reviewed` is in the future and `now` is before tomorrow); on a
deck with cards and no review rows it returns `(N, 0, 0)`. -/
theorem get_study_stats_spec (db : DB) (deck uid : ℕ) (now today_start : ℤ)
    (hnodup : ((deckCards db deck uid).map (fun c => c.id)).Nodup)
    (hday : now < today_start + oneDay)
    (hpast : ∀ r ∈ db.reviews, r.last_reviewed ≤ now) :
    (get_study_stats db deck uid now today_start).1 =
      (deckCards db deck uid).length -
        ((deckCards db deck uid).filter
          (fun c => db.reviews.any (fun r => r.card_id == c.id && r.user_id == uid))).length ∧
    (get_study_stats db deck uid now today_start).2.1 =
      db.reviews.countP (fun r =>
        ((deckCards db deck uid).map (fun c => c.id)).contains r.card_id &&
        r.user_id == uid && dueLe r now) ∧
    (get_study_stats db deck uid now today_start).2.2 =
      db.reviews.countP (fun r =>
        ((deckCards db deck uid).map (fun c => c.id)).contains r.card_id &&
        r.user_id == uid && decide (today_start ≤ r.last_reviewed) &&
        decide (r.last_reviewed < today_start + oneDay)) ∧
    (db.reviews = [] →
      get_study_stats db deck uid now today_start =
        ((deckCards db deck uid).length, 0, 0)) := by
  by_cases hE : (((deckCards db deck uid).map (fun c => c.id)).isEmpty) = true
  · have hnil : deckCards db deck uid = [] :=
      List.map_eq_nil_iff.mp (List.isEmpty_iff.mp hE)
    have hstats : get_study_stats db deck uid now today_start = (0, 0, 0) := by
      unfold get_study_stats
      rw [if_pos hE]
    refine ⟨?_, ?_, ?_, ?_⟩
    · rw [hstats, hnil]; simp
    · rw [hstats]
      symm
      rw [List.countP_eq_zero]
      intro r hr
      rw [hnil]
      simp
    · rw [hstats]
      symm
      rw [List.countP_eq_zero]
      intro r hr
      rw [hnil]
      simp
    · intro h
      rw [hstats, hnil]
      rfl
  · have hstats : get_study_stats db deck uid now today_start =
        (((deckCards db deck uid).map (fun c => c.id)).length -
          ((db.reviews.filter (fun r =>
            ((deckCards db deck uid).map (fun c => c.id)).contains r.card_id &&
            r.user_id == uid)).map (fun r => r.card_id)).dedup.length,
         db.reviews.countP (fun r =>
            ((deckCards db deck uid).map (fun c => c.id)).contains r.card_id &&
            r.user_id == uid && dueLe r now),
         db.reviews.countP (fun r =>
            ((deckCards db deck uid).map (fun c => c.id)).contains r.card_id &&
            r.user_id == uid && decide (today_start ≤ r.last_reviewed))) := by
      unfold get_study_stats
      rw [if_neg hE]
    refine ⟨?_, ?_, ?_, ?_⟩
    · rw [hstats]
      dsimp only
      rw [List.length_map, dedup_reviewed_length db deck uid hnodup]
    · rw [hstats]
    · rw [hstats]
      dsimp only
      apply List.countP_congr
      intro r hr
      have hlt : decide (r.last_reviewed < today_start + oneDay) = true := by
        simp only [decide_eq_true_eq]
        exact lt_of_le_of_lt (hpast r hr) hday
      rw [hlt, Bool.and_true]
    · intro h
      rw [hstats, h]
      simp

/-- Witness for `get_study_stats_spec`: two cards, no review rows —
stats are `(2, 0, 0)`. -/
theorem get_study_stats_spec_witness :
    get_study_stats ⟨[⟨1, 7, 3, "a", 0⟩, ⟨2, 7, 3, "b", 1⟩], []⟩ 3 7 5 0 =
      ((deckCards ⟨[⟨1, 7, 3, "a", 0⟩, ⟨2, 7, 3, "b", 1⟩], []⟩ 3 7).length, 0, 0) :=
  (get_study_stats_spec ⟨[⟨1, 7, 3, "a", 0⟩, ⟨2, 7, 3, "b", 1⟩], []⟩ 3 7 5 0
    (by decide) (by decide) (fun r hr => absurd hr (List.not_mem_nil r))).2.2.2 rfl

end AnkiStudy
